import Mathlib

/-!
Verification of `sync_adp_to_talentlms.py`.

This file gives a shallow embedding of the ADP → TalentLMS sync script and
proves the specified properties of its components: the org-subtree collector
(`get_all_reports_under_manager` / `collect_reports`), the active-worker
filtering pipeline (`get_active_adp_workers`), the TalentLMS email set
(`get_all_talentlms_emails`), the reconciliation loop
(`sync_workers_to_talentlms`) and the program's exit behaviour (`main`).

Helpers imported by the script from `get_adp_info` and
`sync_single_employee` (`is_active_worker`, `find_worker_by_identifier`,
`build_org_hierarchy`, `get_work_email`, `worker_first_last`,
`COURSE_ID_ONBOARDING`) are not part of the repository source; they are
modelled from the specification and each such definition says so in its
doc comment.

Python strings are embedded as `String`; Python `None`-or-string values as
`Option String`, with Python truthiness (`None` and `""` are falsy) made
explicit by `pyStr`.  Network effects of the TalentLMS client are modelled
by oracles: a function giving the outcome of each `create_user` call in
order, and a function giving the outcome of each enrollment attempt.
-/

/-- Truthiness of a Python optional string: `None` and `""` are falsy.
`pyStr x = some s` exactly when `x` holds a non-empty string `s`. -/
def pyStr : Option String → Option String
  | none => none
  | some s => if s = "" then none else some s

/-- Python `a or b` on optional strings: `b` when `a` is falsy, else `a`. -/
def pyOr (a b : Option String) : Option String :=
  match a with
  | none => b
  | some s => if s = "" then b else some s

/-- Lower-case an ASCII letter, as Python `str.lower` does on ASCII. -/
def lowerChar (c : Char) : Char :=
  if 'A' ≤ c ∧ c ≤ 'Z' then Char.ofNat (c.toNat + 32) else c

/-- Whitespace recognised by Python `str.strip` (ASCII fragment). -/
def isSpaceChar (c : Char) : Bool :=
  c = ' ' || c = '\t' || c = '\n' || c = '\r'

/-- Strip leading and trailing whitespace from a character list. -/
def trimChars (l : List Char) : List Char :=
  ((l.dropWhile isSpaceChar).reverse.dropWhile isSpaceChar).reverse

/-- The script's email normalisation `email.strip().lower()`
(lines 43 and 130 of `sync_adp_to_talentlms.py`). -/
def normalizeEmail (s : String) : String :=
  String.mk ((trimChars s.data).map lowerChar)

/-- An email of an ADP worker record, tagged by type (e.g. "work"). -/
structure TaggedEmail where
  tag : String
  address : String
deriving DecidableEq, Repr

/-- An ADP worker record, with the fields the script reads: the id fields
used by `w.get("associateOID") or (w.get("workerID") or {}).get("idValue")`,
the manager reference (as extracted by the org-hierarchy builder), the
active flag, the tagged emails and the name parts.  Absent-or-null string
fields are `Option String`. -/
structure Worker where
  associateOID : Option String
  workerID_idValue : Option String
  reportsTo : Option String
  isActive : Bool
  emails : List TaggedEmail
  firstName : String
  lastName : String
deriving DecidableEq, Repr

/-- The id extraction `w.get("associateOID") or (w.get("workerID") or {}).get("idValue")`
(lines 68–70 and 101–103), normalised by the truthiness test that guards
every use of the result (`if not manager_id` line 72, `if report_id`
line 104): `none` exactly when the extracted id is falsy. -/
def workerId (w : Worker) : Option String :=
  pyStr (pyOr w.associateOID w.workerID_idValue)

/-- Modelled from the spec: `is_active_worker` (from `get_adp_info`, not in
the repository source) — true exactly when the worker's status flag
indicates active employment. -/
def is_active_worker (w : Worker) : Bool :=
  w.isActive

/-- Modelled from the spec: `find_worker_by_identifier` (from
`get_adp_info`, not in the repository source) — given a free-form
identifier, find the single matching record, matching by exact identifier
or case-insensitive (trim-insensitive) email; no match or an ambiguous
match yields `none` (a fatal condition for the caller). -/
def find_worker_by_identifier (workers : List Worker) (ident : String) : Option Worker :=
  match workers.filter (fun w =>
      w.associateOID = some ident ||
      w.workerID_idValue = some ident ||
      w.emails.any (fun e => normalizeEmail e.address = normalizeEmail ident)) with
  | [w] => some w
  | _ => none

/-- Modelled from the spec: the manager→direct-reports mapping of
`build_org_hierarchy` (from `get_adp_info`, not in the repository source) —
each worker whose extracted manager reference is present is appended to
that manager's direct-report list, preserving input order. -/
def manager_map (workers : List Worker) (mgrId : String) : List Worker :=
  workers.filter (fun w => w.reportsTo = some mgrId)

/-- The recursion `collect_reports` inside `get_all_reports_under_manager`
(lines 95–106), made total with a fuel argument: for each direct report,
emit it and then recurse on its id when that id is truthy.  The Python
recursion is the limit of this function as fuel grows; acyclicity makes the
limit reached at fuel `workers.length` (`collect_reports_stable`). -/
def collect_reports (workers : List Worker) : Nat → String → List Worker
  | 0, _ => []
  | fuel + 1, mgrId =>
    (manager_map workers mgrId).flatMap (fun report =>
      report :: match workerId report with
        | some rid => collect_reports workers fuel rid
        | none => [])

/-- The function `get_all_reports_under_manager` (lines 87–108): all direct
and indirect reports of `managerId`.  Fuel `workers.length` suffices on
acyclic data (`collect_reports_stable`). -/
def get_all_reports_under_manager (workers : List Worker) (managerId : String) : List Worker :=
  collect_reports workers workers.length managerId

/-- The function `get_active_adp_workers` (lines 48–84), with the worker
fetch factored out.  `Except.error ()` models `sys.exit(1)`.  Python's
`if manager_identifier:` treats `""` as no filter, hence `pyStr`. -/
def get_active_adp_workers (workers : List Worker) (manager_identifier : Option String) :
    Except Unit (List Worker) :=
  let active_workers := workers.filter is_active_worker
  match pyStr manager_identifier with
  | none => Except.ok active_workers
  | some ident =>
    match find_worker_by_identifier workers ident with
    | none => Except.error ()
    | some manager_worker =>
      match workerId manager_worker with
      | none => Except.error ()
      | some manager_id =>
        let manager_reports := get_all_reports_under_manager workers manager_id
        Except.ok (active_workers.filter (fun w => manager_reports.contains w))

/-- A TalentLMS user as the script reads it: the `email` field, possibly
absent or empty. -/
structure TLMSUser where
  email : Option String
deriving DecidableEq, Repr

/-- The function `get_all_talentlms_emails` (lines 33–45): the set of
normalised emails of all TalentLMS users, skipping falsy emails.  The
Python `set` is embedded as a duplicate-free list built left to right. -/
def get_all_talentlms_emails (users : List TLMSUser) : List String :=
  users.foldl (fun acc u =>
    match pyStr u.email with
    | none => acc
    | some e =>
      let n := normalizeEmail e
      if n ∈ acc then acc else acc ++ [n]) []

/-- Modelled from the spec: `get_work_email` (from `sync_single_employee`,
not in the repository source) — the address of the first email tagged
"work", if any. -/
def get_work_email (w : Worker) : Option String :=
  match w.emails.find? (fun e => e.tag = "work") with
  | some e => some e.address
  | none => none

/-- Modelled from the spec: `worker_first_last` (from
`sync_single_employee`, not in the repository source) — the record's name
parts. -/
def worker_first_last (w : Worker) : String × String :=
  (w.firstName, w.lastName)

/-- Modelled from the spec: `COURSE_ID_ONBOARDING` (from
`sync_single_employee`, not in the repository source) — the fixed
onboarding course id; its concrete value is irrelevant to every property
proved here. -/
def COURSE_ID_ONBOARDING : Nat := 450

/-- Outcome of one `client.create_user` call: a successful response with
its (possibly absent) `id` field, or a raised error. -/
inductive CreateOutcome where
  | ok (uid : Option String)
  | err
deriving DecidableEq, Repr

/-- Observable state of the reconciliation loop of
`sync_workers_to_talentlms` (lines 111–180): the three counters, the trace
of `create_user` calls (the raw email passed), the trace of enrollment
attempts (user id, course id, whether the attempt succeeded), and the
number of create calls made so far (indexing the create oracle). -/
structure SyncState where
  created_count : Nat
  skipped_count : Nat
  error_count : Nat
  create_calls : List String
  enroll_attempts : List (String × Nat × Bool)
  createIdx : Nat
deriving DecidableEq, Repr

/-- The initial state of the loop (lines 117–119). -/
def initSyncState : SyncState :=
  { created_count := 0, skipped_count := 0, error_count := 0,
    create_calls := [], enroll_attempts := [], createIdx := 0 }

/-- One iteration of the loop body (lines 121–170).  `createEnv n` is the
outcome of the `n`-th `create_user` call; `enrollEnv n` the outcome of the
`n`-th enrollment attempt.  Note the code's order: skip on falsy work
email; skip when the normalised email is already in `existing_emails`;
otherwise call `create_user` with the raw email; on error count an error;
on success attempt enrollment only when the returned id is truthy (the
inner `try` swallows any enrollment failure) and count a creation either
way. -/
def syncStep (existing_emails : List String) (createEnv : Nat → CreateOutcome)
    (enrollEnv : Nat → Bool) (s : SyncState) (worker : Worker) : SyncState :=
  match pyStr (get_work_email worker) with
  | none => { s with skipped_count := s.skipped_count + 1 }
  | some email =>
    if normalizeEmail email ∈ existing_emails then
      { s with skipped_count := s.skipped_count + 1 }
    else
      match createEnv s.createIdx with
      | CreateOutcome.err =>
        { s with error_count := s.error_count + 1,
                 create_calls := s.create_calls ++ [email],
                 createIdx := s.createIdx + 1 }
      | CreateOutcome.ok uid =>
        match pyStr uid with
        | none =>
          { s with created_count := s.created_count + 1,
                   create_calls := s.create_calls ++ [email],
                   createIdx := s.createIdx + 1 }
        | some idStr =>
          { s with created_count := s.created_count + 1,
                   create_calls := s.create_calls ++ [email],
                   enroll_attempts := s.enroll_attempts ++
                     [(idStr, COURSE_ID_ONBOARDING, enrollEnv s.enroll_attempts.length)],
                   createIdx := s.createIdx + 1 }

/-- The function `sync_workers_to_talentlms` (lines 111–180): fold the loop
body over the workers in input order. -/
def sync_workers_to_talentlms (workers : List Worker) (existing_emails : List String)
    (createEnv : Nat → CreateOutcome) (enrollEnv : Nat → Bool) : SyncState :=
  workers.foldl (syncStep existing_emails createEnv enrollEnv) initSyncState

/-- The exit code of `main` (lines 183–220): `sys.exit(1)` happens exactly
on the error paths of `get_active_adp_workers`; every other run — the
empty early return at line 214 included — falls off the end of `main` and
the process exits 0. -/
def main_exit_code (users : List TLMSUser) (workers : List Worker)
    (manager_arg : Option String) (createEnv : Nat → CreateOutcome)
    (enrollEnv : Nat → Bool) : Nat :=
  let existing_emails := get_all_talentlms_emails users
  match get_active_adp_workers workers manager_arg with
  | Except.error _ => 1
  | Except.ok active_workers =>
    if active_workers.isEmpty then 0
    else
      let _ := sync_workers_to_talentlms active_workers existing_emails createEnv enrollEnv
      0

/-- The edge relation of the manager-reference graph on identifier strings:
`edgeRel workers a b` when some worker reports to `a` and has id `b`. -/
def edgeRel (workers : List Worker) (a b : String) : Prop :=
  ∃ w, w ∈ workers ∧ w.reportsTo = some a ∧ workerId w = some b

/-- Acyclicity of the manager-reference graph. -/
def AcyclicOrg (workers : List Worker) : Prop :=
  ∀ a, ¬ Relation.TransGen (edgeRel workers) a a

/-- Transitive reports of a manager id, written from the spec's words:
direct reports are reports, and direct reports of a report's id are
reports. -/
inductive TransitiveReport (workers : List Worker) (m : String) : Worker → Prop where
  | direct (w : Worker) : w ∈ workers → w.reportsTo = some m → TransitiveReport workers m w
  | indirect (w w' : Worker) (b : String) : TransitiveReport workers m w →
      workerId w = some b → w' ∈ workers → w'.reportsTo = some b →
      TransitiveReport workers m w'

/-! ## Generic list lemmas -/

/-- A nodup list contained in `l` is no longer than `l`. -/
theorem nodup_subset_length_le {α : Type} [DecidableEq α] {P l : List α}
    (hnd : P.Nodup) (hsub : ∀ p ∈ P, p ∈ l) : P.length ≤ l.length :=
  (List.subperm_of_subset hnd hsub).length_le

/-- The image of a list member is an infix of the `flatMap`. -/
theorem infix_flatMap_of_mem {α β : Type} {l : List α} {x : α} (f : α → List β)
    (hx : x ∈ l) : f x <:+: l.flatMap f := by
  induction l with
  | nil => cases hx
  | cons a t ih =>
    rcases List.mem_cons.mp hx with rfl | hx
    · exact ⟨[], t.flatMap f, by simp [List.flatMap_cons]⟩
    · obtain ⟨u, v, huv⟩ := ih hx
      exact ⟨f a ++ u, v, by simp [List.flatMap_cons, ← huv]⟩

/-- Congruence for `flatMap` over functions agreeing on the list. -/
theorem flatMap_congr_mem {α β : Type} {l : List α} {f g : α → List β}
    (h : ∀ a ∈ l, f a = g a) : l.flatMap f = l.flatMap g := by
  induction l with
  | nil => rfl
  | cons a t ih =>
    simp only [List.flatMap_cons]
    rw [h a (List.mem_cons_self a t), ih fun x hx => h x (List.mem_cons_of_mem a hx)]

/-- A list is a sublist of the `flatMap` that conses each element onto a tail. -/
theorem sublist_flatMap_cons {α : Type} (l : List α) (g : α → List α) :
    l.Sublist (l.flatMap (fun c => c :: g c)) := by
  induction l with
  | nil => simp
  | cons a t ih =>
    simp only [List.flatMap_cons]
    exact List.Sublist.cons₂ a (ih.trans (List.sublist_append_right (g a) _))

/-- A `flatMap` over a nodup list is nodup when segments are nodup and
pairwise disjoint. -/
theorem nodup_flatMap_of_disjoint {α β : Type} {l : List α} {f : α → List β}
    (hl : l.Nodup) (hf : ∀ x ∈ l, (f x).Nodup)
    (hd : ∀ x ∈ l, ∀ y ∈ l, x ≠ y → ∀ z, z ∈ f x → z ∈ f y → False) :
    (l.flatMap f).Nodup := by
  induction l with
  | nil => simp
  | cons a t ih =>
    simp only [List.flatMap_cons]
    have hat := List.nodup_cons.mp hl
    refine (hf a (List.mem_cons_self a t)).append
      (ih hat.2 (fun x hx => hf x (List.mem_cons_of_mem a hx))
        (fun x hx y hy hxy => hd x (List.mem_cons_of_mem a hx) y (List.mem_cons_of_mem a hy) hxy))
      ?_
    intro z hz hz'
    obtain ⟨y, hy, hzy⟩ := List.mem_flatMap.mp hz'
    have hay : a ≠ y := fun h => hat.1 (h ▸ hy)
    exact hd a (List.mem_cons_self a t) y (List.mem_cons_of_mem a hy) hay z hz hzy

/-- Injectivity across a list whose `filterMap` image is nodup. -/
theorem filterMap_nodup_inj {α β : Type} {l : List α} {f : α → Option β}
    (hnd : (l.filterMap f).Nodup) :
    ∀ a ∈ l, ∀ b ∈ l, ∀ v, f a = some v → f b = some v → a = b := by
  induction l with
  | nil => intro a ha; cases ha
  | cons x t ih =>
    intro a ha b hb v hfa hfb
    cases hx : f x with
    | none =>
      rcases List.mem_cons.mp ha with rfl | ha'
      · rw [hx] at hfa; cases hfa
      rcases List.mem_cons.mp hb with rfl | hb'
      · rw [hx] at hfb; cases hfb
      exact ih (by rwa [List.filterMap_cons_none hx] at hnd) a ha' b hb' v hfa hfb
    | some u =>
      rw [List.filterMap_cons_some hx] at hnd
      have hnd' := List.nodup_cons.mp hnd
      rcases List.mem_cons.mp ha with rfl | ha' <;> rcases List.mem_cons.mp hb with rfl | hb'
      · rfl
      · exfalso
        rw [hx] at hfa
        exact hnd'.1 (List.mem_filterMap.mpr ⟨b, hb', by rw [hfb, ← hfa]⟩)
      · exfalso
        rw [hx] at hfb
        exact hnd'.1 (List.mem_filterMap.mpr ⟨a, ha', by rw [hfa, ← hfb]⟩)
      · exact ih hnd'.2 a ha' b hb' v hfa hfb

/-! ## The TalentLMS email set -/

/-- One step of the accumulation in `get_all_talentlms_emails`. -/
theorem get_all_talentlms_emails_eq (users : List TLMSUser) :
    get_all_talentlms_emails users = users.foldl (fun acc u =>
      match pyStr u.email with
      | none => acc
      | some e =>
        let n := normalizeEmail e
        if n ∈ acc then acc else acc ++ [n]) [] := rfl

/-- Membership in the accumulated email set. -/
theorem mem_talentlms_emails_foldl (users : List TLMSUser) :
    ∀ (acc : List String) (x : String),
      (x ∈ users.foldl (fun acc u =>
        match pyStr u.email with
        | none => acc
        | some e =>
          let n := normalizeEmail e
          if n ∈ acc then acc else acc ++ [n]) acc ↔
      x ∈ acc ∨ ∃ u ∈ users, ∃ e, pyStr u.email = some e ∧ normalizeEmail e = x) := by
  induction users with
  | nil => simp
  | cons u us ih =>
    intro acc x
    rw [List.foldl_cons, ih]
    cases hu : pyStr u.email with
    | none =>
      simp only [hu]
      constructor
      · rintro (h | h)
        · exact Or.inl h
        · exact Or.inr (by
            obtain ⟨u', hu', e, he, hn⟩ := h
            exact ⟨u', List.mem_cons_of_mem u hu', e, he, hn⟩)
      · rintro (h | ⟨u', hu', e, he, hn⟩)
        · exact Or.inl h
        rcases List.mem_cons.mp hu' with rfl | hu''
        · rw [hu] at he; cases he
        · exact Or.inr ⟨u', hu'', e, he, hn⟩
    | some e =>
      simp only [hu]
      by_cases hn : normalizeEmail e ∈ acc
      · simp only [if_pos hn]
        constructor
        · rintro (h | h)
          · exact Or.inl h
          · obtain ⟨u', hu', e', he', hn'⟩ := h
            exact Or.inr ⟨u', List.mem_cons_of_mem u hu', e', he', hn'⟩
        · rintro (h | ⟨u', hu', e', he', hn'⟩)
          · exact Or.inl h
          rcases List.mem_cons.mp hu' with rfl | hu''
          · rw [hu] at he'
            cases he'
            exact Or.inl (hn' ▸ hn)
          · exact Or.inr ⟨u', hu'', e', he', hn'⟩
      · simp only [if_neg hn, List.mem_append, List.mem_singleton]
        constructor
        · rintro ((h | h) | h)
          · exact Or.inl h
          · exact Or.inr ⟨u, List.mem_cons_self u us, e, hu, h.symm⟩
          · obtain ⟨u', hu', e', he', hn'⟩ := h
            exact Or.inr ⟨u', List.mem_cons_of_mem u hu', e', he', hn'⟩
        · rintro (h | ⟨u', hu', e', he', hn'⟩)
          · exact Or.inl (Or.inl h)
          rcases List.mem_cons.mp hu' with rfl | hu''
          · rw [hu] at he'
            cases he'
            exact Or.inl (Or.inr hn'.symm)
          · exact Or.inr ⟨u', hu'', e', he', hn'⟩

/-- The accumulated email set stays duplicate-free. -/
theorem nodup_talentlms_emails_foldl (users : List TLMSUser) :
    ∀ (acc : List String), acc.Nodup →
      (users.foldl (fun acc u =>
        match pyStr u.email with
        | none => acc
        | some e =>
          let n := normalizeEmail e
          if n ∈ acc then acc else acc ++ [n]) acc).Nodup := by
  induction users with
  | nil => intro acc h; exact h
  | cons u us ih =>
    intro acc h
    rw [List.foldl_cons]
    apply ih
    cases hu : pyStr u.email with
    | none => exact h
    | some e =>
      simp only
      by_cases hn : normalizeEmail e ∈ acc
      · simp only [if_pos hn]; exact h
      · simp only [if_neg hn]
        exact h.append (List.nodup_singleton _) (by
          intro z hz hz'
          rw [List.mem_singleton] at hz'
          exact hn (hz' ▸ hz))

/-- C3: membership in the `AccountEmailSet` built by
`get_all_talentlms_emails` is case-insensitive and whitespace-trim
insensitive: a candidate email matches exactly when its trimmed,
lower-cased form equals the trimmed, lower-cased form of some stored
(truthy) account email; the set collapses duplicates; and concretely
`" Jane@X.com "` matches a store holding `"jane@x.com"`. -/
theorem accountEmailSet_membership (users : List TLMSUser) (candidate : String) :
    (normalizeEmail candidate ∈ get_all_talentlms_emails users ↔
      ∃ u ∈ users, ∃ e, pyStr u.email = some e ∧
        normalizeEmail candidate = normalizeEmail e)
    ∧ (get_all_talentlms_emails users).Nodup
    ∧ normalizeEmail " Jane@X.com " ∈
        get_all_talentlms_emails [{ email := some "jane@x.com" }] := by
  refine ⟨?_, ?_, by decide⟩
  · rw [get_all_talentlms_emails_eq, mem_talentlms_emails_foldl]
    simp only [List.not_mem_nil, false_or]
    constructor
    · rintro ⟨u, hu, e, he, hn⟩
      exact ⟨u, hu, e, he, hn.symm⟩
    · rintro ⟨u, hu, e, he, hn⟩
      exact ⟨u, hu, e, he, hn.symm⟩
  · rw [get_all_talentlms_emails_eq]
    exact nodup_talentlms_emails_foldl users [] List.nodup_nil

/-! ## The reconciliation loop -/

/-- Step behaviour on a worker with no (truthy) work email: a skip. -/
theorem syncStep_no_email {existing : List String} {createEnv : Nat → CreateOutcome}
    {enrollEnv : Nat → Bool} {s : SyncState} {w : Worker}
    (h : pyStr (get_work_email w) = none) :
    syncStep existing createEnv enrollEnv s w =
      { s with skipped_count := s.skipped_count + 1 } := by
  unfold syncStep
  rw [h]

/-- Step behaviour on a worker whose normalised email is already stored:
a skip. -/
theorem syncStep_already_exists {existing : List String} {createEnv : Nat → CreateOutcome}
    {enrollEnv : Nat → Bool} {s : SyncState} {w : Worker} {e : String}
    (h : pyStr (get_work_email w) = some e) (hmem : normalizeEmail e ∈ existing) :
    syncStep existing createEnv enrollEnv s w =
      { s with skipped_count := s.skipped_count + 1 } := by
  unfold syncStep
  rw [h]
  simp only [if_pos hmem]

/-- Step behaviour when the create call errors: an error, and the call is
recorded. -/
theorem syncStep_create_err {existing : List String} {createEnv : Nat → CreateOutcome}
    {enrollEnv : Nat → Bool} {s : SyncState} {w : Worker} {e : String}
    (h : pyStr (get_work_email w) = some e) (hmem : normalizeEmail e ∉ existing)
    (hc : createEnv s.createIdx = CreateOutcome.err) :
    syncStep existing createEnv enrollEnv s w =
      { s with error_count := s.error_count + 1,
               create_calls := s.create_calls ++ [e],
               createIdx := s.createIdx + 1 } := by
  unfold syncStep
  rw [h]
  simp only [if_neg hmem, hc]

/-- Step behaviour when the create call succeeds with a falsy id: counted
as created, no enrollment attempt. -/
theorem syncStep_create_ok_falsy_id {existing : List String}
    {createEnv : Nat → CreateOutcome} {enrollEnv : Nat → Bool} {s : SyncState}
    {w : Worker} {e : String} {uid : Option String}
    (h : pyStr (get_work_email w) = some e) (hmem : normalizeEmail e ∉ existing)
    (hc : createEnv s.createIdx = CreateOutcome.ok uid) (hu : pyStr uid = none) :
    syncStep existing createEnv enrollEnv s w =
      { s with created_count := s.created_count + 1,
               create_calls := s.create_calls ++ [e],
               createIdx := s.createIdx + 1 } := by
  unfold syncStep
  rw [h]
  simp only [if_neg hmem, hc, hu]

/-- Step behaviour when the create call succeeds with a truthy id: counted
as created, one enrollment attempt into the onboarding course. -/
theorem syncStep_create_ok_truthy_id {existing : List String}
    {createEnv : Nat → CreateOutcome} {enrollEnv : Nat → Bool} {s : SyncState}
    {w : Worker} {e : String} {uid : Option String} {idStr : String}
    (h : pyStr (get_work_email w) = some e) (hmem : normalizeEmail e ∉ existing)
    (hc : createEnv s.createIdx = CreateOutcome.ok uid) (hu : pyStr uid = some idStr) :
    syncStep existing createEnv enrollEnv s w =
      { s with created_count := s.created_count + 1,
               create_calls := s.create_calls ++ [e],
               enroll_attempts := s.enroll_attempts ++
                 [(idStr, COURSE_ID_ONBOARDING, enrollEnv s.enroll_attempts.length)],
               createIdx := s.createIdx + 1 } := by
  unfold syncStep
  rw [h]
  simp only [if_neg hmem, hc, hu]

/-- Every loop iteration increments exactly one of the three counters. -/
theorem syncStep_counter_sum (existing : List String) (createEnv : Nat → CreateOutcome)
    (enrollEnv : Nat → Bool) (s : SyncState) (w : Worker) :
    (syncStep existing createEnv enrollEnv s w).created_count +
      (syncStep existing createEnv enrollEnv s w).skipped_count +
      (syncStep existing createEnv enrollEnv s w).error_count =
    s.created_count + s.skipped_count + s.error_count + 1 := by
  cases h : pyStr (get_work_email w) with
  | none =>
    rw [syncStep_no_email h]
    simp only
    omega
  | some e =>
    by_cases hmem : normalizeEmail e ∈ existing
    · rw [syncStep_already_exists h hmem]
      simp only
      omega
    · cases hc : createEnv s.createIdx with
      | err =>
        rw [syncStep_create_err h hmem hc]
        simp only
        omega
      | ok uid =>
        cases hu : pyStr uid with
        | none =>
          rw [syncStep_create_ok_falsy_id h hmem hc hu]
          simp only
          omega
        | some idStr =>
          rw [syncStep_create_ok_truthy_id h hmem hc hu]
          simp only
          omega

/-- Counter sum over a fold of the loop body. -/
theorem syncFold_counter_sum (existing : List String) (createEnv : Nat → CreateOutcome)
    (enrollEnv : Nat → Bool) :
    ∀ (workers : List Worker) (s : SyncState),
      (workers.foldl (syncStep existing createEnv enrollEnv) s).created_count +
        (workers.foldl (syncStep existing createEnv enrollEnv) s).skipped_count +
        (workers.foldl (syncStep existing createEnv enrollEnv) s).error_count =
      s.created_count + s.skipped_count + s.error_count + workers.length := by
  intro workers
  induction workers with
  | nil => intro s; simp
  | cons w ws ih =>
    intro s
    rw [List.foldl_cons, ih, syncStep_counter_sum]
    simp only [List.length_cons]
    omega

/-- C8: after `sync_workers_to_talentlms` finishes,
`created_count + skipped_count + error_count` equals the number of workers
processed — each iteration classifies its worker into exactly one of
created, skipped or errored. -/
theorem sync_counters_partition (workers : List Worker) (existing : List String)
    (createEnv : Nat → CreateOutcome) (enrollEnv : Nat → Bool) :
    (sync_workers_to_talentlms workers existing createEnv enrollEnv).created_count +
      (sync_workers_to_talentlms workers existing createEnv enrollEnv).skipped_count +
      (sync_workers_to_talentlms workers existing createEnv enrollEnv).error_count =
    workers.length := by
  unfold sync_workers_to_talentlms
  rw [syncFold_counter_sum]
  simp [initSyncState]

/-- Processing `pre ++ w :: post` processes `pre`, then `w`, then `post`. -/
theorem sync_append_cons (existing : List String) (createEnv : Nat → CreateOutcome)
    (enrollEnv : Nat → Bool) (pre post : List Worker) (w : Worker) :
    sync_workers_to_talentlms (pre ++ w :: post) existing createEnv enrollEnv =
      List.foldl (syncStep existing createEnv enrollEnv)
        (syncStep existing createEnv enrollEnv
          (List.foldl (syncStep existing createEnv enrollEnv) initSyncState pre) w)
        post := by
  unfold sync_workers_to_talentlms
  rw [List.foldl_append, List.foldl_cons]

/-- C4: a filtered worker with no work-tagged email is skipped:
`skipped_count` increments by one, no account-creation call is recorded for
it, it is not counted as an error, and the loop continues with the
remaining workers. -/
theorem sync_skips_worker_without_email (existing : List String)
    (createEnv : Nat → CreateOutcome) (enrollEnv : Nat → Bool)
    (pre post : List Worker) (w : Worker)
    (h : pyStr (get_work_email w) = none) :
    sync_workers_to_talentlms (pre ++ w :: post) existing createEnv enrollEnv =
      List.foldl (syncStep existing createEnv enrollEnv)
        { List.foldl (syncStep existing createEnv enrollEnv) initSyncState pre with
          skipped_count :=
            (List.foldl (syncStep existing createEnv enrollEnv) initSyncState pre).skipped_count
              + 1 }
        post := by
  rw [sync_append_cons, syncStep_no_email h]

/-- C5: when the account-creation call for a worker errors, `error_count`
increments by one (the call itself being recorded) and the loop continues
with the remaining workers in input order; the fold never aborts. -/
theorem sync_continues_after_create_error (existing : List String)
    (createEnv : Nat → CreateOutcome) (enrollEnv : Nat → Bool)
    (pre post : List Worker) (w : Worker) (e : String)
    (h : pyStr (get_work_email w) = some e)
    (hmem : normalizeEmail e ∉ existing)
    (hc : createEnv (List.foldl (syncStep existing createEnv enrollEnv)
            initSyncState pre).createIdx = CreateOutcome.err) :
    sync_workers_to_talentlms (pre ++ w :: post) existing createEnv enrollEnv =
      List.foldl (syncStep existing createEnv enrollEnv)
        { List.foldl (syncStep existing createEnv enrollEnv) initSyncState pre with
          error_count :=
            (List.foldl (syncStep existing createEnv enrollEnv) initSyncState pre).error_count
              + 1,
          create_calls :=
            (List.foldl (syncStep existing createEnv enrollEnv) initSyncState pre).create_calls
              ++ [e],
          createIdx :=
            (List.foldl (syncStep existing createEnv enrollEnv) initSyncState pre).createIdx
              + 1 }
        post := by
  rw [sync_append_cons, syncStep_create_err h hmem hc]

/-- C6: when account creation succeeds (with a truthy id) and the
subsequent enrollment into the fixed onboarding course fails, the worker
is still counted as created, the creation is not rolled back (the create
call stays recorded), the failed enrollment attempt is merely recorded,
and the loop continues with the remaining workers. -/
theorem sync_keeps_creation_after_enroll_failure (existing : List String)
    (createEnv : Nat → CreateOutcome) (enrollEnv : Nat → Bool)
    (pre post : List Worker) (w : Worker) (e idStr : String) (uid : Option String)
    (h : pyStr (get_work_email w) = some e)
    (hmem : normalizeEmail e ∉ existing)
    (hc : createEnv (List.foldl (syncStep existing createEnv enrollEnv)
            initSyncState pre).createIdx = CreateOutcome.ok uid)
    (hu : pyStr uid = some idStr)
    (hfail : enrollEnv (List.foldl (syncStep existing createEnv enrollEnv)
            initSyncState pre).enroll_attempts.length = false) :
    sync_workers_to_talentlms (pre ++ w :: post) existing createEnv enrollEnv =
      List.foldl (syncStep existing createEnv enrollEnv)
        { List.foldl (syncStep existing createEnv enrollEnv) initSyncState pre with
          created_count :=
            (List.foldl (syncStep existing createEnv enrollEnv) initSyncState pre).created_count
              + 1,
          create_calls :=
            (List.foldl (syncStep existing createEnv enrollEnv) initSyncState pre).create_calls
              ++ [e],
          enroll_attempts :=
            (List.foldl (syncStep existing createEnv enrollEnv)
              initSyncState pre).enroll_attempts ++ [(idStr, COURSE_ID_ONBOARDING, false)],
          createIdx :=
            (List.foldl (syncStep existing createEnv enrollEnv) initSyncState pre).createIdx
              + 1 }
        post := by
  rw [sync_append_cons, syncStep_create_ok_truthy_id h hmem hc hu, hfail]

/-- C10: for a worker that reaches the creation step, the enrollment
attempt into the onboarding course happens exactly when the create call
succeeded and the returned id is truthy: on success with a falsy id no
enrollment is attempted yet the worker is still counted as created, on
success with a truthy id exactly one attempt on `COURSE_ID_ONBOARDING` is
made, and on a failed create call no attempt is made. -/
theorem sync_enrollment_iff_truthy_id (existing : List String)
    (createEnv : Nat → CreateOutcome) (enrollEnv : Nat → Bool)
    (s : SyncState) (w : Worker) (e : String)
    (h : pyStr (get_work_email w) = some e)
    (hmem : normalizeEmail e ∉ existing) :
    (∀ uid, createEnv s.createIdx = CreateOutcome.ok uid → pyStr uid = none →
      syncStep existing createEnv enrollEnv s w =
        { s with created_count := s.created_count + 1,
                 create_calls := s.create_calls ++ [e],
                 createIdx := s.createIdx + 1 })
    ∧ (∀ uid idStr, createEnv s.createIdx = CreateOutcome.ok uid →
        pyStr uid = some idStr →
        (syncStep existing createEnv enrollEnv s w).enroll_attempts =
          s.enroll_attempts ++
            [(idStr, COURSE_ID_ONBOARDING, enrollEnv s.enroll_attempts.length)]
        ∧ (syncStep existing createEnv enrollEnv s w).created_count =
            s.created_count + 1)
    ∧ (createEnv s.createIdx = CreateOutcome.err →
        (syncStep existing createEnv enrollEnv s w).enroll_attempts =
          s.enroll_attempts) := by
  refine ⟨?_, ?_, ?_⟩
  · intro uid hc hu
    exact syncStep_create_ok_falsy_id h hmem hc hu
  · intro uid idStr hc hu
    rw [syncStep_create_ok_truthy_id h hmem hc hu]
    exact ⟨rfl, rfl⟩
  · intro hc
    rw [syncStep_create_err h hmem hc]

/-- The email a worker contributes to the create-call trace: its raw work
email exactly when that email is truthy and its normalised form is absent
from the initial email set. -/
def shouldCreateEmail (existing : List String) (w : Worker) : Option String :=
  match pyStr (get_work_email w) with
  | none => none
  | some e => if normalizeEmail e ∈ existing then none else some e

/-- The create-call trace of a fold of the loop body, against the fixed
initial email set. -/
theorem syncFold_create_calls (existing : List String) (createEnv : Nat → CreateOutcome)
    (enrollEnv : Nat → Bool) :
    ∀ (workers : List Worker) (s : SyncState),
      (workers.foldl (syncStep existing createEnv enrollEnv) s).create_calls =
        s.create_calls ++ workers.filterMap (shouldCreateEmail existing) := by
  intro workers
  induction workers with
  | nil => intro s; simp
  | cons w ws ih =>
    intro s
    rw [List.foldl_cons, ih]
    cases h : pyStr (get_work_email w) with
    | none =>
      rw [syncStep_no_email h]
      simp [List.filterMap_cons, shouldCreateEmail, h]
    | some e =>
      by_cases hmem : normalizeEmail e ∈ existing
      · rw [syncStep_already_exists h hmem]
        simp [List.filterMap_cons, shouldCreateEmail, h, hmem]
      · cases hc : createEnv s.createIdx with
        | err =>
          rw [syncStep_create_err h hmem hc]
          simp [List.filterMap_cons, shouldCreateEmail, h, hmem]
        | ok uid =>
          cases hu : pyStr uid with
          | none =>
            rw [syncStep_create_ok_falsy_id h hmem hc hu]
            simp [List.filterMap_cons, shouldCreateEmail, h, hmem]
          | some idStr =>
            rw [syncStep_create_ok_truthy_id h hmem hc hu]
            simp [List.filterMap_cons, shouldCreateEmail, h, hmem]

/-- C9: the loop never mutates the initial email set or the worker list —
every worker is tested against the same `existing_emails`, so the
create-call trace is the pointwise `filterMap` of the input list; in
particular, when two workers in the list share a normalized work email
that is not initially stored, a create call is issued for both (the first
creation does not make the second a skip). -/
theorem sync_create_calls_frame (existing : List String)
    (createEnv : Nat → CreateOutcome) (enrollEnv : Nat → Bool)
    (pre mid post : List Worker) (w₁ w₂ : Worker) (e₁ e₂ : String)
    (h₁ : pyStr (get_work_email w₁) = some e₁)
    (h₂ : pyStr (get_work_email w₂) = some e₂)
    (hsame : normalizeEmail e₁ = normalizeEmail e₂)
    (hmem : normalizeEmail e₁ ∉ existing) :
    (∀ workers : List Worker,
      (sync_workers_to_talentlms workers existing createEnv enrollEnv).create_calls =
        workers.filterMap (shouldCreateEmail existing))
    ∧ ∃ l₁ l₂ l₃,
        (sync_workers_to_talentlms (pre ++ w₁ :: (mid ++ w₂ :: post))
            existing createEnv enrollEnv).create_calls =
          l₁ ++ e₁ :: (l₂ ++ e₂ :: l₃) := by
  have hframe : ∀ workers : List Worker,
      (sync_workers_to_talentlms workers existing createEnv enrollEnv).create_calls =
        workers.filterMap (shouldCreateEmail existing) := by
    intro workers
    unfold sync_workers_to_talentlms
    rw [syncFold_create_calls]
    rfl
  refine ⟨hframe, ?_⟩
  refine ⟨pre.filterMap (shouldCreateEmail existing),
    mid.filterMap (shouldCreateEmail existing),
    post.filterMap (shouldCreateEmail existing), ?_⟩
  rw [hframe]
  have hc₁ : shouldCreateEmail existing w₁ = some e₁ := by
    simp [shouldCreateEmail, h₁, hmem]
  have hc₂ : shouldCreateEmail existing w₂ = some e₂ := by
    simp [shouldCreateEmail, h₂, ← hsame, hmem]
  simp [List.filterMap_append, List.filterMap_cons, hc₁, hc₂]

/-! ## The filtering pipeline and the exit code -/

/-- C2: with a truthy manager filter that resolves to a record with a
truthy id, the pipeline first filters to active workers and then restricts
to the intersection with the subtree collector's output for the resolved
manager id; intersection is by membership — a worker survives exactly when
a structurally equal worker occurs in the subtree output — and the
surviving active workers keep their relative order (the result is a
sublist of the active-worker list). -/
theorem filtering_pipeline_intersection (workers : List Worker) (ident : String)
    (mw : Worker) (mid : String)
    (hident : ident ≠ "")
    (hfind : find_worker_by_identifier workers ident = some mw)
    (hid : workerId mw = some mid) :
    get_active_adp_workers workers (some ident) =
      Except.ok ((workers.filter is_active_worker).filter
        (fun w => (get_all_reports_under_manager workers mid).contains w))
    ∧ (∀ w, w ∈ (workers.filter is_active_worker).filter
          (fun w => (get_all_reports_under_manager workers mid).contains w) ↔
        (w ∈ workers.filter is_active_worker ∧
          ∃ w' ∈ get_all_reports_under_manager workers mid, w' = w))
    ∧ ((workers.filter is_active_worker).filter
        (fun w => (get_all_reports_under_manager workers mid).contains w)).Sublist
          (workers.filter is_active_worker) := by
  refine ⟨?_, ?_, List.filter_sublist _⟩
  · have hp : pyStr (some ident) = some ident := by
      simp [pyStr, hident]
    simp only [get_active_adp_workers, hp, hfind, hid]
  · intro w
    rw [List.mem_filter]
    constructor
    · rintro ⟨hw, hc⟩
      exact ⟨hw, w, List.elem_iff.mp hc, rfl⟩
    · rintro ⟨hw, w', hw', rfl⟩
      exact ⟨hw, List.elem_iff.mpr hw'⟩

/-- Characterisation of the `sys.exit(1)` paths of
`get_active_adp_workers`: a truthy manager filter that either fails to
resolve or resolves to a record with no truthy id. -/
theorem get_active_error_iff (workers : List Worker) (manager_arg : Option String) :
    get_active_adp_workers workers manager_arg = Except.error () ↔
      ∃ ident, pyStr manager_arg = some ident ∧
        (find_worker_by_identifier workers ident = none ∨
         ∃ mw, find_worker_by_identifier workers ident = some mw ∧
           workerId mw = none) := by
  unfold get_active_adp_workers
  cases hp : pyStr manager_arg with
  | none => simp
  | some ident =>
    cases hf : find_worker_by_identifier workers ident with
    | none => simp [hf]
    | some mw =>
      cases hw : workerId mw with
      | none => simp [hf, hw]
      | some mid => simp [hf, hw]

/-- C7 (amended): the program exits 1 exactly when a truthy manager filter
is supplied and either the identifier does not resolve to a worker record,
or the resolved manager record has no truthy `associateOID`/`workerID` id;
every other run — runs with nothing to sync included — exits 0. -/
theorem main_exit_code_spec (users : List TLMSUser) (workers : List Worker)
    (manager_arg : Option String) (createEnv : Nat → CreateOutcome)
    (enrollEnv : Nat → Bool) :
    (main_exit_code users workers manager_arg createEnv enrollEnv = 1 ↔
      ∃ ident, pyStr manager_arg = some ident ∧
        (find_worker_by_identifier workers ident = none ∨
         ∃ mw, find_worker_by_identifier workers ident = some mw ∧
           workerId mw = none))
    ∧ (main_exit_code users workers manager_arg createEnv enrollEnv = 0 ∨
       main_exit_code users workers manager_arg createEnv enrollEnv = 1) := by
  have hmain : main_exit_code users workers manager_arg createEnv enrollEnv = 1 ↔
      get_active_adp_workers workers manager_arg = Except.error () := by
    unfold main_exit_code
    cases hres : get_active_adp_workers workers manager_arg with
    | error u => cases u; simp
    | ok active =>
      by_cases he : active.isEmpty <;> simp [he]
  refine ⟨hmain.trans (get_active_error_iff workers manager_arg), ?_⟩
  unfold main_exit_code
  cases hres : get_active_adp_workers workers manager_arg with
  | error u => right; rfl
  | ok active =>
    by_cases he : active.isEmpty <;> simp [he]

/-! ## The subtree collector -/

/-- A transitive report is a worker of the list. -/
theorem TransitiveReport.mem_workers {workers : List Worker} {m : String} {w : Worker}
    (h : TransitiveReport workers m w) : w ∈ workers := by
  induction h with
  | direct w hw _ => exact hw
  | indirect w w' b _ _ hw' _ _ => exact hw'

/-- A transitive report has a manager reference. -/
theorem TransitiveReport.parent_exists {workers : List Worker} {m : String} {w : Worker}
    (h : TransitiveReport workers m w) : ∃ r, w.reportsTo = some r := by
  cases h with
  | direct w _ hrep => exact ⟨m, hrep⟩
  | indirect v w b _ _ _ hrep => exact ⟨b, hrep⟩

/-- Transitive reports compose through an intermediate report's id. -/
theorem TransitiveReport.glue {workers : List Worker} {m b : String} {c w : Worker}
    (hc : TransitiveReport workers m c) (hb : workerId c = some b)
    (hw : TransitiveReport workers b w) : TransitiveReport workers m w := by
  induction hw with
  | direct w hwmem hwrep => exact TransitiveReport.indirect c w b hc hb hwmem hwrep
  | indirect v w b' _ hvb hwmem hwrep ih =>
    exact TransitiveReport.indirect v w b' ih hvb hwmem hwrep

/-- The manager id multi-steps to the id of each of its transitive
reports. -/
theorem TransitiveReport.transGen_id {workers : List Worker} {m : String} {w : Worker}
    (h : TransitiveReport workers m w) :
    ∀ b, workerId w = some b → Relation.TransGen (edgeRel workers) m b := by
  induction h with
  | direct w hwmem hwrep =>
    intro b hb
    exact Relation.TransGen.single ⟨w, hwmem, hwrep, hb⟩
  | indirect v w b' hv hvb hwmem hwrep ih =>
    intro b hb
    exact (ih b' hvb).tail ⟨w, hwmem, hwrep, hb⟩

/-- The manager id multi-steps to the manager reference of each of its
transitive reports. -/
theorem TransitiveReport.reflTransGen_parent {workers : List Worker} {m : String}
    {w : Worker} (h : TransitiveReport workers m w) :
    ∀ r, w.reportsTo = some r → Relation.ReflTransGen (edgeRel workers) m r := by
  cases h with
  | direct w _ hwrep =>
    intro r hr
    rw [hwrep] at hr
    cases hr
    exact Relation.ReflTransGen.refl
  | indirect v w b hv hvb _ hwrep =>
    intro r hr
    rw [hwrep] at hr
    cases hr
    exact (hv.transGen_id b hvb).to_reflTransGen

/-- The direct-report list of a manager id: membership. -/
theorem mem_manager_map {workers : List Worker} {a : String} {w : Worker} :
    w ∈ manager_map workers a ↔ w ∈ workers ∧ w.reportsTo = some a := by
  unfold manager_map
  rw [List.mem_filter]
  constructor
  · rintro ⟨hw, hd⟩
    exact ⟨hw, by exact of_decide_eq_true hd⟩
  · rintro ⟨hw, hd⟩
    exact ⟨hw, by exact decide_eq_true hd⟩

/-- Soundness: everything the collector returns is a transitive report. -/
theorem collect_reports_sound (workers : List Worker) :
    ∀ (fuel : Nat) (a : String) (w : Worker),
      w ∈ collect_reports workers fuel a → TransitiveReport workers a w := by
  intro fuel
  induction fuel with
  | zero => intro a w hw; cases hw
  | succ fuel ih =>
    intro a w hw
    rw [collect_reports] at hw
    obtain ⟨c, hc, hwc⟩ := List.mem_flatMap.mp hw
    obtain ⟨hcmem, hcrep⟩ := mem_manager_map.mp hc
    rcases List.mem_cons.mp hwc with rfl | hwc'
    · exact TransitiveReport.direct w hcmem hcrep
    · cases hid : workerId c with
      | none => rw [hid] at hwc'; cases hwc'
      | some b =>
        rw [hid] at hwc'
        exact (TransitiveReport.direct c hcmem hcrep).glue hid (ih b w hwc')

/-- Invariant of the recursion's call path: the workers consumed on the way
to the current manager id `a` are distinct members of the list, and each of
their ids multi-steps to `a`. -/
def PathInv (workers : List Worker) (P : List Worker) (a : String) : Prop :=
  P.Nodup ∧ (∀ p ∈ P, p ∈ workers) ∧
    ∀ p ∈ P, ∃ c, workerId p = some c ∧ Relation.ReflTransGen (edgeRel workers) c a

/-- The empty path satisfies the invariant at any root. -/
theorem pathInv_nil (workers : List Worker) (a : String) : PathInv workers [] a :=
  ⟨List.nodup_nil, fun p hp => absurd hp (List.not_mem_nil p), fun p hp =>
    absurd hp (List.not_mem_nil p)⟩

/-- On acyclic data, a direct report of the current id is never a worker
already consumed on the path to it. -/
theorem child_not_mem_path {workers P : List Worker} {a b : String} {w : Worker}
    (hacy : AcyclicOrg workers) (hinv : PathInv workers P a)
    (hw : w ∈ workers) (hrep : w.reportsTo = some a) (hb : workerId w = some b) :
    w ∉ P := by
  intro hmem
  obtain ⟨c, hc, hca⟩ := hinv.2.2 w hmem
  rw [hb] at hc
  cases hc
  exact hacy a (Relation.TransGen.trans_left
    (Relation.TransGen.single ⟨w, hw, hrep, hb⟩) hca)

/-- Extending the path with a direct report preserves the invariant. -/
theorem pathInv_cons {workers P : List Worker} {a b : String} {w : Worker}
    (hacy : AcyclicOrg workers) (hinv : PathInv workers P a)
    (hw : w ∈ workers) (hrep : w.reportsTo = some a) (hb : workerId w = some b) :
    PathInv workers (w :: P) b := by
  refine ⟨List.nodup_cons.mpr ⟨child_not_mem_path hacy hinv hw hrep hb, hinv.1⟩, ?_, ?_⟩
  · intro p hp
    rcases List.mem_cons.mp hp with rfl | hp'
    · exact hw
    · exact hinv.2.1 p hp'
  · intro p hp
    rcases List.mem_cons.mp hp with rfl | hp'
    · exact ⟨b, hb, Relation.ReflTransGen.refl⟩
    · obtain ⟨c, hc, hca⟩ := hinv.2.2 p hp'
      exact ⟨c, hc, hca.tail ⟨w, hw, hrep, hb⟩⟩

/-- When the path has consumed as many workers as the list holds, the
current id has no direct reports. -/
theorem path_saturated {workers P : List Worker} {a : String}
    (hacy : AcyclicOrg workers) (hinv : PathInv workers P a)
    (hlen : workers.length ≤ P.length) :
    manager_map workers a = [] := by
  unfold manager_map
  rw [List.filter_eq_nil_iff]
  rintro w hw hrep'
  have hrep : w.reportsTo = some a := of_decide_eq_true hrep'
  have hwP : w ∉ P := by
    cases hb : workerId w with
    | none =>
      intro hmem
      obtain ⟨c, hc, _⟩ := hinv.2.2 w hmem
      rw [hb] at hc
      cases hc
    | some b => exact child_not_mem_path hacy hinv hw hrep hb
  have : P.length ≤ (workers.erase w).length :=
    nodup_subset_length_le hinv.1 (fun p hp =>
      (List.mem_erase_of_ne (fun h => hwP (by rw [← h]; exact hp))).mpr (hinv.2.1 p hp))
  rw [List.length_erase_of_mem hw] at this
  have hpos : 0 < workers.length := List.length_pos.mpr (List.ne_nil_of_mem hw)
  omega

/-- Stabilisation: past the fuel bound justified by the path invariant, one
more unit of fuel does not change the collector's output. -/
theorem collect_reports_stab {workers : List Worker} (hacy : AcyclicOrg workers) :
    ∀ (fuel : Nat) (P : List Worker) (a : String), PathInv workers P a →
      workers.length ≤ fuel + P.length →
      collect_reports workers (fuel + 1) a = collect_reports workers fuel a := by
  intro fuel
  induction fuel with
  | zero =>
    intro P a hinv hlen
    rw [collect_reports, collect_reports, path_saturated hacy hinv (by omega)]
    rfl
  | succ fuel ih =>
    intro P a hinv hlen
    rw [collect_reports, collect_reports]
    apply flatMap_congr_mem
    intro r hr
    obtain ⟨hrmem, hrrep⟩ := mem_manager_map.mp hr
    cases hid : workerId r with
    | none => rfl
    | some b =>
      show r :: collect_reports workers (fuel + 1) b = r :: collect_reports workers fuel b
      rw [ih (r :: P) b (pathInv_cons hacy hinv hrmem hrrep hid)
        (by simp only [List.length_cons]; omega)]

/-- On acyclic data the collector agrees with `get_all_reports_under_manager`
at every fuel allowed by the path invariant. -/
theorem collect_reports_eq_of_pathInv {workers P : List Worker} {a : String}
    (hacy : AcyclicOrg workers) (hinv : PathInv workers P a) :
    ∀ fuel, workers.length ≤ fuel + P.length →
      collect_reports workers fuel a = get_all_reports_under_manager workers a := by
  have key : ∀ k, collect_reports workers ((workers.length - P.length) + k) a =
      collect_reports workers (workers.length - P.length) a := by
    intro k
    induction k with
    | zero => rfl
    | succ k ih =>
      have hstab := collect_reports_stab hacy ((workers.length - P.length) + k) P a hinv
        (by omega)
      calc collect_reports workers ((workers.length - P.length) + (k + 1)) a
          = collect_reports workers ((workers.length - P.length) + k + 1) a := by
            rw [Nat.add_assoc]
        _ = collect_reports workers ((workers.length - P.length) + k) a := hstab
        _ = collect_reports workers (workers.length - P.length) a := ih
  intro fuel hfuel
  have h1 : collect_reports workers fuel a =
      collect_reports workers (workers.length - P.length) a := by
    have : fuel = (workers.length - P.length) + (fuel - (workers.length - P.length)) := by
      omega
    rw [this, key]
  have h2 : collect_reports workers workers.length a =
      collect_reports workers (workers.length - P.length) a := by
    have : workers.length =
        (workers.length - P.length) + (workers.length - (workers.length - P.length)) := by
      omega
    conv_lhs => rw [this]
    rw [key]
  unfold get_all_reports_under_manager
  rw [h1, h2]

/-- C1 termination: on acyclic data every fuel of at least the worker-list
length yields the same collector output. -/
theorem collect_reports_stable {workers : List Worker} (hacy : AcyclicOrg workers)
    (m : String) :
    ∀ fuel, workers.length ≤ fuel →
      collect_reports workers fuel m = get_all_reports_under_manager workers m := by
  intro fuel hfuel
  exact collect_reports_eq_of_pathInv hacy (pathInv_nil workers m) fuel (by omega)

/-- A direct report is in the collector's output. -/
theorem mem_get_all_of_direct {workers : List Worker} {a : String} {w : Worker}
    (hw : w ∈ workers) (hrep : w.reportsTo = some a) :
    w ∈ get_all_reports_under_manager workers a := by
  unfold get_all_reports_under_manager
  cases hN : workers.length with
  | zero => exact absurd (List.length_eq_zero.mp hN ▸ hw) (List.not_mem_nil w)
  | succ k =>
    rw [collect_reports]
    exact List.mem_flatMap.mpr ⟨w, mem_manager_map.mpr ⟨hw, hrep⟩, List.mem_cons_self _ _⟩

/-- Pre-order structure: each collected worker heads a contiguous block of
the output consisting of itself followed by its whole subtree. -/
theorem collect_reports_infix {workers : List Worker} (hacy : AcyclicOrg workers) :
    ∀ (fuel : Nat) (P : List Worker) (a : String), PathInv workers P a →
      workers.length ≤ fuel + P.length →
      ∀ w ∈ collect_reports workers fuel a, ∀ b, workerId w = some b →
        (w :: get_all_reports_under_manager workers b) <:+:
          collect_reports workers fuel a := by
  intro fuel
  induction fuel with
  | zero => intro P a _ _ w hw; cases hw
  | succ fuel ih =>
    intro P a hinv hlen w hw b hb
    rw [collect_reports] at hw ⊢
    obtain ⟨c, hc, hwc⟩ := List.mem_flatMap.mp hw
    obtain ⟨hcmem, hcrep⟩ := mem_manager_map.mp hc
    have hseg := infix_flatMap_of_mem (fun report =>
      report :: match workerId report with
        | some rid => collect_reports workers fuel rid
        | none => []) hc
    rcases List.mem_cons.mp hwc with rfl | hwc'
    · have heq : collect_reports workers fuel b =
          get_all_reports_under_manager workers b :=
        collect_reports_eq_of_pathInv hacy (pathInv_cons hacy hinv hcmem hcrep hb)
          fuel (by simp only [List.length_cons]; omega)
      simp only [hb] at hseg
      rw [heq] at hseg
      exact hseg
    · cases hid : workerId c with
      | none => rw [hid] at hwc'; cases hwc'
      | some d =>
        rw [hid] at hwc'
        have hsub := ih (c :: P) d (pathInv_cons hacy hinv hcmem hcrep hid)
          (by simp only [List.length_cons]; omega) w hwc' b hb
        simp only [hid] at hseg
        exact hsub.trans (((List.suffix_cons c _).isInfix).trans hseg)

/-- Completeness: every transitive report is in the collector's output. -/
theorem transitiveReport_mem_get_all {workers : List Worker}
    (hacy : AcyclicOrg workers) {m : String} {w : Worker}
    (h : TransitiveReport workers m w) :
    w ∈ get_all_reports_under_manager workers m := by
  induction h with
  | direct w hwmem hwrep => exact mem_get_all_of_direct hwmem hwrep
  | indirect v w b hv hvb hwmem hwrep ih =>
    have hinf := collect_reports_infix hacy workers.length [] m (pathInv_nil workers m)
      (by omega) v ih b hvb
    exact hinf.subset (List.mem_cons_of_mem v (mem_get_all_of_direct hwmem hwrep))

/-- With duplicate-free ids, an id determines its in-edge source. -/
theorem edge_into_unique {workers : List Worker}
    (HID : (workers.filterMap workerId).Nodup) {z₁ z₂ p : String}
    (h₁ : edgeRel workers z₁ p) (h₂ : edgeRel workers z₂ p) : z₁ = z₂ := by
  obtain ⟨w₁, hw₁, hr₁, hi₁⟩ := h₁
  obtain ⟨w₂, hw₂, hr₂, hi₂⟩ := h₂
  have heq := filterMap_nodup_inj HID w₁ hw₁ w₂ hw₂ p hi₁ hi₂
  subst heq
  rw [hr₁] at hr₂
  exact Option.some.inj hr₂

/-- With duplicate-free ids, two ids reaching a common id are comparable in
the edge order. -/
theorem reflTransGen_comparable {workers : List Worker}
    (HID : (workers.filterMap workerId).Nodup) {b₁ p : String}
    (h₁ : Relation.ReflTransGen (edgeRel workers) b₁ p) :
    ∀ b₂, Relation.ReflTransGen (edgeRel workers) b₂ p →
      b₁ = b₂ ∨ Relation.TransGen (edgeRel workers) b₁ b₂ ∨
        Relation.TransGen (edgeRel workers) b₂ b₁ := by
  induction h₁ with
  | refl =>
    intro b₂ h₂
    rcases h₂.cases_tail with heq | ⟨c, hc, e⟩
    · exact Or.inl heq
    · exact Or.inr (Or.inr (Relation.TransGen.tail' hc e))
  | tail hmid e₁ ih =>
    intro b₂ h₂
    rcases h₂.cases_tail with heq | ⟨c₂, hc₂, e₂⟩
    · exact Or.inr (Or.inl (heq ▸ Relation.TransGen.tail' hmid e₁))
    · have hce : c₂ = _ := edge_into_unique HID e₂ e₁
      subst hce
      exact ih b₂ hc₂

/-- On acyclic data with duplicate-free records and ids, the collector's
output is duplicate-free at every fuel. -/
theorem collect_reports_nodup {workers : List Worker} (hacy : AcyclicOrg workers)
    (HW : workers.Nodup) (HID : (workers.filterMap workerId).Nodup) :
    ∀ (fuel : Nat) (a : String), (collect_reports workers fuel a).Nodup := by
  intro fuel
  induction fuel with
  | zero => intro a; rw [collect_reports]; exact List.nodup_nil
  | succ fuel ih =>
    intro a
    rw [collect_reports]
    apply nodup_flatMap_of_disjoint (HW.filter _)
    · intro c hcm
      obtain ⟨hcmem, hcrep⟩ := mem_manager_map.mp hcm
      cases hid : workerId c with
      | none => simp
      | some b =>
        simp only
        rw [List.nodup_cons]
        refine ⟨?_, ih b⟩
        intro hcmem'
        have hsnd := collect_reports_sound workers fuel b c hcmem'
        have hba := hsnd.reflTransGen_parent a hcrep
        exact hacy a (Relation.TransGen.trans_left
          (Relation.TransGen.single ⟨c, hcmem, hcrep, hid⟩) hba)
    · intro c₁ hc₁ c₂ hc₂ hne z hz₁ hz₂
      obtain ⟨hm₁, hr₁⟩ := mem_manager_map.mp hc₁
      obtain ⟨hm₂, hr₂⟩ := mem_manager_map.mp hc₂
      rcases List.mem_cons.mp hz₁ with rfl | hz₁'
      · rcases List.mem_cons.mp hz₂ with heq | hz₂'
        · exact hne heq
        · cases hid₂ : workerId c₂ with
          | none => rw [hid₂] at hz₂'; cases hz₂'
          | some b₂ =>
            rw [hid₂] at hz₂'
            have hsnd := collect_reports_sound workers fuel b₂ z hz₂'
            have hba := hsnd.reflTransGen_parent a hr₁
            exact hacy a (Relation.TransGen.trans_left
              (Relation.TransGen.single ⟨c₂, hm₂, hr₂, hid₂⟩) hba)
      · rcases List.mem_cons.mp hz₂ with rfl | hz₂'
        · cases hid₁ : workerId c₁ with
          | none => rw [hid₁] at hz₁'; cases hz₁'
          | some b₁ =>
            rw [hid₁] at hz₁'
            have hsnd := collect_reports_sound workers fuel b₁ z hz₁'
            have hba := hsnd.reflTransGen_parent a hr₂
            exact hacy a (Relation.TransGen.trans_left
              (Relation.TransGen.single ⟨c₁, hm₁, hr₁, hid₁⟩) hba)
        · cases hid₁ : workerId c₁ with
          | none => rw [hid₁] at hz₁'; cases hz₁'
          | some b₁ =>
            cases hid₂ : workerId c₂ with
            | none => rw [hid₂] at hz₂'; cases hz₂'
            | some b₂ =>
              rw [hid₁] at hz₁'
              rw [hid₂] at hz₂'
              have ht₁ := collect_reports_sound workers fuel b₁ z hz₁'
              have ht₂ := collect_reports_sound workers fuel b₂ z hz₂'
              have hbne : b₁ ≠ b₂ := by
                intro h
                exact hne (filterMap_nodup_inj HID c₁ hm₁ c₂ hm₂ b₁ hid₁ (h ▸ hid₂))
              obtain ⟨r, hr⟩ := ht₁.parent_exists
              have hra := ht₁.reflTransGen_parent r hr
              have hrb := ht₂.reflTransGen_parent r hr
              rcases reflTransGen_comparable HID hra b₂ hrb with heq | htg | htg
              · exact hbne heq
              · obtain ⟨zb, hzb, ezb⟩ := Relation.TransGen.tail'_iff.mp htg
                have hza : zb = a := edge_into_unique HID ezb ⟨c₂, hm₂, hr₂, hid₂⟩
                rw [hza] at hzb
                exact hacy a (Relation.TransGen.trans_left
                  (Relation.TransGen.single ⟨c₁, hm₁, hr₁, hid₁⟩) hzb)
              · obtain ⟨zb, hzb, ezb⟩ := Relation.TransGen.tail'_iff.mp htg
                have hza : zb = a := edge_into_unique HID ezb ⟨c₁, hm₁, hr₁, hid₁⟩
                rw [hza] at hzb
                exact hacy a (Relation.TransGen.trans_left
                  (Relation.TransGen.single ⟨c₂, hm₂, hr₂, hid₂⟩) hzb)

/-- The direct-report list is an in-order sublist of the collector's
output. -/
theorem manager_map_sublist_get_all (workers : List Worker) (m : String) :
    (manager_map workers m).Sublist (get_all_reports_under_manager workers m) := by
  unfold get_all_reports_under_manager
  cases hN : workers.length with
  | zero =>
    have hnil : workers = [] := List.length_eq_zero.mp hN
    subst hnil
    exact List.Sublist.refl []
  | succ k =>
    rw [collect_reports]
    exact sublist_flatMap_cons _ _

/-- C1: on a worker list whose manager-reference graph is well formed
(duplicate-free records and duplicate-free truthy ids, as the data model's
"stable identifier" requires) and acyclic, the recursion `collect_reports`
terminates — its fuel semantics is stable from fuel `workers.length`
onwards — and `get_all_reports_under_manager` returns exactly the
transitive reports of the manager id, each exactly once, in depth-first
pre-order: each report heads the contiguous block of its own subtree, so
it appears before each of its own reports, and the direct reports appear
in the order of the direct-report list. -/
theorem subtree_collector_correct (workers : List Worker) (m : String)
    (hacy : AcyclicOrg workers) (HW : workers.Nodup)
    (HID : (workers.filterMap workerId).Nodup) :
    (∀ fuel, workers.length ≤ fuel →
      collect_reports workers fuel m = get_all_reports_under_manager workers m)
    ∧ (∀ w, w ∈ get_all_reports_under_manager workers m ↔
        TransitiveReport workers m w)
    ∧ (get_all_reports_under_manager workers m).Nodup
    ∧ (∀ w w' b, w ∈ get_all_reports_under_manager workers m →
        w' ∈ get_all_reports_under_manager workers m →
        workerId w = some b → w'.reportsTo = some b →
        ∃ l₁ l₂ l₃, get_all_reports_under_manager workers m =
          l₁ ++ w :: (l₂ ++ w' :: l₃))
    ∧ (manager_map workers m).Sublist (get_all_reports_under_manager workers m) := by
  refine ⟨collect_reports_stable hacy m, ?_, ?_, ?_, manager_map_sublist_get_all workers m⟩
  · intro w
    exact ⟨fun hw => collect_reports_sound workers workers.length m w hw,
      fun h => transitiveReport_mem_get_all hacy h⟩
  · exact collect_reports_nodup hacy HW HID workers.length m
  · intro w w' b hw hw' hb hb'
    have hinf := collect_reports_infix hacy workers.length [] m
      (pathInv_nil workers m) (by omega) w hw b hb
    obtain ⟨u, v, huv⟩ := hinf
    have hw'mem : w' ∈ workers :=
      (collect_reports_sound workers workers.length m w' hw').mem_workers
    have hw'b : w' ∈ get_all_reports_under_manager workers b :=
      mem_get_all_of_direct hw'mem hb'
    obtain ⟨l₂, l₃, hsplit⟩ := List.append_of_mem hw'b
    refine ⟨u, l₂, l₃ ++ v, ?_⟩
    show collect_reports workers workers.length m = _
    rw [← huv, hsplit]
    simp [List.append_assoc, List.cons_append]

/-! ## Concrete instances -/

/-- Boolean check that a rank function increases along a worker's manager
reference. -/
def rankOk (rank : String → Nat) (w : Worker) : Bool :=
  match w.reportsTo, workerId w with
  | some a, some b => rank a < rank b
  | _, _ => true

/-- Acyclicity follows from any rank function increasing along manager
references, stated in a form decidable on concrete worker lists. -/
theorem acyclicOrg_of_rank (workers : List Worker) (rank : String → Nat)
    (h : ∀ w ∈ workers, rankOk rank w = true) : AcyclicOrg workers := by
  have hedge : ∀ a b, edgeRel workers a b → rank a < rank b := by
    rintro a b ⟨w, hw, hrep, hid⟩
    have hm := h w hw
    unfold rankOk at hm
    simp only [hrep, hid] at hm
    exact of_decide_eq_true hm
  intro a hcyc
  have hlt : ∀ x y, Relation.TransGen (edgeRel workers) x y → rank x < rank y := by
    intro x y hxy
    induction hxy with
    | single e => exact hedge _ _ e
    | tail _ e ih => exact lt_trans ih (hedge _ _ e)
  exact lt_irrefl _ (hlt a a hcyc)

/-- Example organisation: id 1 at the root, id 2 under 1, id 3 under 2. -/
def exManager : Worker :=
  { associateOID := some "1", workerID_idValue := none, reportsTo := none,
    isActive := true, emails := [{ tag := "work", address := "mgr@x.com" }],
    firstName := "Mia", lastName := "Mgr" }

/-- Example worker with id 2 reporting to id 1. -/
def exReport : Worker :=
  { associateOID := some "2", workerID_idValue := none, reportsTo := some "1",
    isActive := true, emails := [{ tag := "work", address := "rep@x.com" }],
    firstName := "Rex", lastName := "Rep" }

/-- Example worker with id 3 reporting to id 2. -/
def exLeaf : Worker :=
  { associateOID := some "3", workerID_idValue := none, reportsTo := some "2",
    isActive := true, emails := [{ tag := "work", address := "leaf@x.com" }],
    firstName := "Lea", lastName := "Leaf" }

/-- The example worker list of the spec's subtree scenario. -/
def exOrg : List Worker := [exManager, exReport, exLeaf]

/-- A rank function witnessing acyclicity of `exOrg`. -/
def exRank : String → Nat :=
  fun s => if s = "1" then 0 else if s = "2" then 1 else 2

/-- An example worker with no email at all. -/
def exNoEmail : Worker :=
  { associateOID := some "9", workerID_idValue := none, reportsTo := none,
    isActive := true, emails := [], firstName := "N", lastName := "E" }

/-- An example worker with work email `jane@x.com`. -/
def exJane : Worker :=
  { associateOID := some "4", workerID_idValue := none, reportsTo := none,
    isActive := true, emails := [{ tag := "work", address := "jane@x.com" }],
    firstName := "Jane", lastName := "D" }

/-- An example worker whose work email differs from `exJane`'s only in
case and surrounding whitespace. -/
def exJane2 : Worker :=
  { associateOID := some "5", workerID_idValue := none, reportsTo := none,
    isActive := true, emails := [{ tag := "work", address := " JANE@X.COM " }],
    firstName := "Janet", lastName := "D" }

/-- A resolvable manager record carrying no truthy id. -/
def cexManager : Worker :=
  { associateOID := none, workerID_idValue := none, reportsTo := none,
    isActive := true, emails := [{ tag := "work", address := "boss@x.com" }],
    firstName := "B", lastName := "M" }

/-- A create oracle that always errors. -/
def cfErr : Nat → CreateOutcome := fun _ => CreateOutcome.err

/-- A create oracle that always succeeds with truthy id `"7"`. -/
def cfOk7 : Nat → CreateOutcome := fun _ => CreateOutcome.ok (some "7")

/-- A create oracle that always succeeds with a falsy id. -/
def cfOkNoId : Nat → CreateOutcome := fun _ => CreateOutcome.ok (some "")

/-- An enrollment oracle that always succeeds. -/
def efTrue : Nat → Bool := fun _ => true

/-- An enrollment oracle that always fails. -/
def efFalse : Nat → Bool := fun _ => false

/-- Witness for C1 at the spec's scenario: the hypotheses hold for `exOrg`
and the subtree of id 1 is `[exReport, exLeaf]` in that order. -/
theorem subtree_collector_correct_witness :
    (get_all_reports_under_manager exOrg "1").Nodup
    ∧ get_all_reports_under_manager exOrg "1" = [exReport, exLeaf] :=
  ⟨(subtree_collector_correct exOrg "1"
      (acyclicOrg_of_rank exOrg exRank (by decide)) (by decide) (by decide)).2.2.1,
   by decide⟩

/-- Witness for C2: on `exOrg` with filter `"1"`, the pipeline returns the
active workers intersected with the subtree of id 1. -/
theorem filtering_pipeline_intersection_witness :
    get_active_adp_workers exOrg (some "1") =
      Except.ok ((exOrg.filter is_active_worker).filter
        (fun w => (get_all_reports_under_manager exOrg "1").contains w)) :=
  (filtering_pipeline_intersection exOrg "1" exManager "1"
    (by decide) (by decide) (by decide)).1

/-- Witness for C4: syncing the email-less worker alone records one skip
and nothing else. -/
theorem sync_skips_worker_without_email_witness :
    sync_workers_to_talentlms ([] ++ exNoEmail :: []) [] cfErr efTrue =
      List.foldl (syncStep [] cfErr efTrue)
        { List.foldl (syncStep [] cfErr efTrue) initSyncState [] with
          skipped_count :=
            (List.foldl (syncStep [] cfErr efTrue) initSyncState []).skipped_count + 1 }
        [] :=
  sync_skips_worker_without_email [] cfErr efTrue [] [] exNoEmail (by decide)

/-- Witness for C5: a failing create call on `exJane` records one error
and the attempted call, and the loop goes on. -/
theorem sync_continues_after_create_error_witness :
    sync_workers_to_talentlms ([] ++ exJane :: []) [] cfErr efTrue =
      List.foldl (syncStep [] cfErr efTrue)
        { List.foldl (syncStep [] cfErr efTrue) initSyncState [] with
          error_count :=
            (List.foldl (syncStep [] cfErr efTrue) initSyncState []).error_count + 1,
          create_calls :=
            (List.foldl (syncStep [] cfErr efTrue) initSyncState []).create_calls
              ++ ["jane@x.com"],
          createIdx :=
            (List.foldl (syncStep [] cfErr efTrue) initSyncState []).createIdx + 1 }
        [] :=
  sync_continues_after_create_error [] cfErr efTrue [] [] exJane "jane@x.com"
    (by decide) (by decide) rfl

/-- Witness for C6: a successful creation for `exJane` followed by a failed
enrollment still counts her as created and keeps the created account. -/
theorem sync_keeps_creation_after_enroll_failure_witness :
    sync_workers_to_talentlms ([] ++ exJane :: []) [] cfOk7 efFalse =
      List.foldl (syncStep [] cfOk7 efFalse)
        { List.foldl (syncStep [] cfOk7 efFalse) initSyncState [] with
          created_count :=
            (List.foldl (syncStep [] cfOk7 efFalse) initSyncState []).created_count + 1,
          create_calls :=
            (List.foldl (syncStep [] cfOk7 efFalse) initSyncState []).create_calls
              ++ ["jane@x.com"],
          enroll_attempts :=
            (List.foldl (syncStep [] cfOk7 efFalse) initSyncState []).enroll_attempts
              ++ [("7", COURSE_ID_ONBOARDING, false)],
          createIdx :=
            (List.foldl (syncStep [] cfOk7 efFalse) initSyncState []).createIdx + 1 }
        [] :=
  sync_keeps_creation_after_enroll_failure [] cfOk7 efFalse [] [] exJane
    "jane@x.com" "7" (some "7") (by decide) (by decide) rfl (by decide) rfl

/-- Witness for C9: syncing `exJane` and `exJane2` (same normalised email,
absent from the store) issues a create call for both. -/
theorem sync_create_calls_frame_witness :
    ∃ l₁ l₂ l₃,
      (sync_workers_to_talentlms ([] ++ exJane :: ([] ++ exJane2 :: []))
          [] cfOk7 efTrue).create_calls =
        l₁ ++ "jane@x.com" :: (l₂ ++ " JANE@X.COM " :: l₃) :=
  (sync_create_calls_frame [] cfOk7 efTrue [] [] [] exJane exJane2
    "jane@x.com" " JANE@X.COM " (by decide) (by decide) (by decide) (by decide)).2

/-- Witness for C10: creation of `exJane` succeeding with a falsy id is
counted as created with no enrollment attempt. -/
theorem sync_enrollment_iff_truthy_id_witness :
    syncStep [] cfOkNoId efTrue initSyncState exJane =
      { initSyncState with
        created_count := initSyncState.created_count + 1,
        create_calls := initSyncState.create_calls ++ ["jane@x.com"],
        createIdx := initSyncState.createIdx + 1 } :=
  (sync_enrollment_iff_truthy_id [] cfOkNoId efTrue initSyncState exJane
    "jane@x.com" (by decide) (by decide)).1 (some "") rfl (by decide)

/-- Counterexample to C7 as stated: the identifier `"boss@x.com"` resolves
to a worker record (`cexManager`), yet the run exits with code 1, because
the resolved record has no truthy `associateOID`/`workerID` id. -/
theorem main_exit_one_despite_resolvable :
    find_worker_by_identifier [cexManager] "boss@x.com" = some cexManager
    ∧ main_exit_code [] [cexManager] (some "boss@x.com") cfErr efTrue = 1 := by
  constructor
  · decide
  · decide
